import Mathlib

/-!
# FinDash price-feed & alerting pipeline: verification of the spec's claims

Shallow embedding of the FinDash backend/frontend code that the claims
concern:

* `DatabaseService` (in-memory fallback path) alert/notification store:
  `getActiveAlertSymbols`, `getActiveAlertsBySymbols`, `createNotification`,
  `setAlertInactive` (src/backend/services/DatabaseService.js).
* `AlertService.checkAlerts` (src/unnamed/part_006).
* `CoinLayerService`: `getLiveRates`, `getMockRates`, `getTimeFrameRates`,
  `getDateRange`, `getTimeSeries` gap-fill, and
  `generateRealisticHistoricalData` (src/backend/services/CoinLayerService.js).
* `ratesToHistory` forward/backward fill (src/unnamed/part_004).
* `WebSocketServiceClass` subscription hub (src/unnamed/part_003).

Modelling conventions: prices are rationals (`ℚ`); JS `Math.random()` streams
are explicit parameters `rand : ℕ → ℚ` consumed by index in call order;
calendar dates are consecutive day indices (`ℕ`), which is faithful to
`getDateRange`'s day-by-day walk; upstream HTTP responses are `Option`-valued
parameters (`none` = network failure / thrown fetch); JS objects keyed by
date or symbol are association lists in insertion order; a JS `Set` is a
duplicate-free list in insertion order.
-/

namespace FinDash

/-! ## Database model (DatabaseService.js, in-memory fallback path)

The in-memory (`!this.usePostgres`) branch of `DatabaseService` is modelled;
the Postgres branch of `setAlertInactive` has the same observable contract
(`UPDATE ... WHERE id = $1` reports `rowCount > 0` iff a row with the id
exists, with no guard on the previous `isActive` value). -/

structure Alert where
  id : ℕ
  userId : ℕ
  symbol : String
  condition : String
  targetValue : ℚ
  isActive : Bool
deriving DecidableEq

structure Notification where
  id : ℕ
  userId : ℕ
  alertId : ℕ
  message : String
deriving DecidableEq

structure DBState where
  userAlerts : List Alert
  userNotifications : List Notification
deriving DecidableEq

/-- `[...new Set(alerts.map(a => a.symbol))]` on the active alerts:
first-occurrence deduplication in insertion order. -/
def getActiveAlertSymbols (db : DBState) : List String :=
  ((db.userAlerts.filter (·.isActive)).map (·.symbol)).foldl
    (fun acc s => if s ∈ acc then acc else acc ++ [s]) []

/-- `getActiveAlertsBySymbols`: empty input gives `[]`; otherwise the active
alerts whose symbol is in the list, in store order. -/
def getActiveAlertsBySymbols (db : DBState) (symbols : List String) : List Alert :=
  if symbols = [] then []
  else db.userAlerts.filter (fun a => a.isActive && decide (a.symbol ∈ symbols))

/-- `Math.max(...ids, 0)`. -/
def maxId (ids : List ℕ) : ℕ := ids.foldl max 0

/-- `createNotification(userId, alertId, message)`: appends a notification
with id `max existing + 1`. -/
def createNotification (db : DBState) (userId alertId : ℕ) (message : String) :
    DBState :=
  let nid := maxId (db.userNotifications.map (·.id)) + 1
  { db with userNotifications :=
      db.userNotifications ++ [⟨nid, userId, alertId, message⟩] }

/-- The mutation step of `setAlertInactive`: `find` returns the first alert
with the id and its `isActive` is set to `false` unconditionally. -/
def setAlertInactiveFirst : List Alert → ℕ → List Alert
  | [], _ => []
  | a :: rest, i =>
    if a.id = i then { a with isActive := false } :: rest
    else a :: setAlertInactiveFirst rest i

/-- `setAlertInactive(alertId) -> (new state, returned bool)`: returns `true`
iff an alert with the id exists, and flips the first such alert to inactive
(no guard on its previous state). -/
def setAlertInactive (db : DBState) (i : ℕ) : DBState × Bool :=
  if db.userAlerts.any (fun a => a.id = i) then
    ({ db with userAlerts := setAlertInactiveFirst db.userAlerts i }, true)
  else (db, false)

/-! ## AlertService.checkAlerts (src/unnamed/part_006) -/

structure RatesResult where
  success : Bool
  rates : List (String × ℚ)

def lookupRate (sym : String) : List (String × ℚ) → Option ℚ
  | [] => none
  | p :: rest => if p.1 = sym then some p.2 else lookupRate sym rest

/-- The notification text.  The source builds a Russian message with
`toLocaleString` number formatting; the locale formatting is abstracted to
`toString`, which no claim inspects. -/
def alertMessage (a : Alert) (currentPrice : ℚ) : String :=
  if a.condition = "above" then
    a.symbol ++ " поднялся до $" ++ toString currentPrice ++ " (порог: $"
      ++ toString a.targetValue ++ ")"
  else
    a.symbol ++ " упал до $" ++ toString currentPrice ++ " (порог: $"
      ++ toString a.targetValue ++ ")"

/-- `currentPrice >= target` for "above", `currentPrice <= target` otherwise. -/
def alertTriggered (a : Alert) (currentPrice : ℚ) : Bool :=
  if a.condition = "above" then decide (a.targetValue ≤ currentPrice)
  else decide (currentPrice ≤ a.targetValue)

/-- The loop body of `checkAlerts` for one alert: skip if the sweep's rate
map has no price for the symbol; on trigger, create the notification then
set the alert inactive. -/
def processAlert (rates : List (String × ℚ)) (db : DBState) (a : Alert) : DBState :=
  match lookupRate a.symbol rates with
  | none => db
  | some p =>
    if alertTriggered a p then
      (setAlertInactive (createNotification db a.userId a.id (alertMessage a p)) a.id).1
    else db

/-- `AlertService.checkAlerts`: collect active symbols, one batch rate fetch
(`getRates`, the `CoinLayerService.getLiveRates` response for those symbols),
then iterate over the snapshot of active alerts. -/
def checkAlerts (getRates : List String → RatesResult) (db : DBState) : DBState :=
  if getActiveAlertSymbols db = [] then db
  else if (getRates (getActiveAlertSymbols db)).success = false then db
  else
    (getActiveAlertsBySymbols db (getActiveAlertSymbols db)).foldl
      (processAlert (getRates (getActiveAlertSymbols db)).rates) db

/-- A sequence of serialized sweeps. -/
def runSweeps (gs : List (List String → RatesResult)) (db : DBState) : DBState :=
  gs.foldl (fun d g => checkAlerts g d) db

/-- Notifications recorded for a given alert id. -/
def notifsFor (db : DBState) (i : ℕ) : List Notification :=
  db.userNotifications.filter (fun n => n.alertId = i)

/-- `true` iff some alert with the id is active. -/
def activeOfId (db : DBState) (i : ℕ) : Bool :=
  db.userAlerts.any (fun a => a.id = i && a.isActive)

/-- Every alert carrying the id is inactive. -/
def inactiveId (db : DBState) (i : ℕ) : Prop :=
  ∀ a ∈ db.userAlerts, a.id = i → a.isActive = false

/-! ### Invariants of the sweep: an inactive alert stays inactive and gains
no notification -/

theorem setAlertInactiveFirst_inactiveId (l : List Alert) (i j : ℕ)
    (h : ∀ a ∈ l, a.id = j → a.isActive = false) :
    ∀ a ∈ setAlertInactiveFirst l i, a.id = j → a.isActive = false := by
  induction l with
  | nil => simp [setAlertInactiveFirst]
  | cons b rest ih =>
    intro a ha
    simp only [setAlertInactiveFirst] at ha
    by_cases hb : b.id = i
    · rw [if_pos hb] at ha
      rcases List.mem_cons.mp ha with h1 | h1
      · subst h1; intro _; rfl
      · exact h a (List.mem_cons_of_mem _ h1)
    · rw [if_neg hb] at ha
      rcases List.mem_cons.mp ha with h1 | h1
      · subst h1; exact h a (List.mem_cons_self _ _)
      · exact ih (fun x hx => h x (List.mem_cons_of_mem _ hx)) a h1

theorem setAlertInactive_inactiveId (db : DBState) (i j : ℕ)
    (h : inactiveId db j) : inactiveId (setAlertInactive db i).1 j := by
  unfold setAlertInactive
  split
  · exact fun a ha => setAlertInactiveFirst_inactiveId _ i j h a ha
  · exact h

theorem createNotification_userAlerts (db : DBState) (u i : ℕ) (m : String) :
    (createNotification db u i m).userAlerts = db.userAlerts := rfl

theorem setAlertInactive_userNotifications (db : DBState) (i : ℕ) :
    (setAlertInactive db i).1.userNotifications = db.userNotifications := by
  unfold setAlertInactive
  split <;> rfl

theorem processAlert_inactiveId (rates : List (String × ℚ)) (db : DBState)
    (a : Alert) (j : ℕ) (h : inactiveId db j) :
    inactiveId (processAlert rates db a) j := by
  cases hl : lookupRate a.symbol rates with
  | none => simp only [processAlert, hl]; exact h
  | some p =>
    simp only [processAlert, hl]
    by_cases ht : alertTriggered a p = true
    · rw [if_pos ht]; exact setAlertInactive_inactiveId _ _ _ h
    · rw [if_neg ht]; exact h

theorem foldl_processAlert_inactiveId (rates : List (String × ℚ))
    (l : List Alert) (j : ℕ) :
    ∀ db, inactiveId db j → inactiveId (l.foldl (processAlert rates) db) j := by
  induction l with
  | nil => exact fun db h => h
  | cons a rest ih =>
    intro db h
    exact ih _ (processAlert_inactiveId rates db a j h)

theorem checkAlerts_inactiveId (g : List String → RatesResult) (db : DBState)
    (j : ℕ) (h : inactiveId db j) : inactiveId (checkAlerts g db) j := by
  unfold checkAlerts
  split_ifs
  · exact h
  · exact h
  · exact foldl_processAlert_inactiveId _ _ _ db h

theorem notifsFor_createNotification (db : DBState) (u i : ℕ) (m : String)
    (j : ℕ) (hij : i ≠ j) :
    notifsFor (createNotification db u i m) j = notifsFor db j := by
  unfold notifsFor createNotification
  simp [List.filter_append, hij]

theorem processAlert_notifsFor (rates : List (String × ℚ)) (db : DBState)
    (a : Alert) (j : ℕ) (hij : a.id ≠ j) :
    notifsFor (processAlert rates db a) j = notifsFor db j := by
  cases hl : lookupRate a.symbol rates with
  | none => simp only [processAlert, hl]
  | some p =>
    simp only [processAlert, hl]
    by_cases ht : alertTriggered a p = true
    · rw [if_pos ht]
      have h1 : notifsFor (setAlertInactive (createNotification db a.userId a.id
            (alertMessage a p)) a.id).1 j
          = notifsFor (createNotification db a.userId a.id (alertMessage a p)) j := by
        unfold notifsFor
        rw [setAlertInactive_userNotifications]
      rw [h1]
      exact notifsFor_createNotification db a.userId a.id _ j hij
    · rw [if_neg ht]

theorem foldl_processAlert_notifsFor (rates : List (String × ℚ))
    (l : List Alert) (j : ℕ) :
    ∀ db, (∀ a ∈ l, a.id ≠ j) →
      notifsFor (l.foldl (processAlert rates) db) j = notifsFor db j := by
  induction l with
  | nil => exact fun db _ => rfl
  | cons a rest ih =>
    intro db h
    have h1 : notifsFor (processAlert rates db a) j = notifsFor db j :=
      processAlert_notifsFor rates db a j (h a (List.mem_cons_self _ _))
    calc notifsFor ((a :: rest).foldl (processAlert rates) db) j
        = notifsFor (rest.foldl (processAlert rates) (processAlert rates db a)) j := rfl
      _ = notifsFor (processAlert rates db a) j :=
          ih _ (fun x hx => h x (List.mem_cons_of_mem _ hx))
      _ = notifsFor db j := h1

theorem mem_getActiveAlertsBySymbols (db : DBState) (symbols : List String)
    (a : Alert) (ha : a ∈ getActiveAlertsBySymbols db symbols) :
    a ∈ db.userAlerts ∧ a.isActive = true := by
  unfold getActiveAlertsBySymbols at ha
  split at ha
  · simp at ha
  · have := List.mem_filter.mp ha
    refine ⟨this.1, ?_⟩
    have h2 := this.2
    simp only [Bool.and_eq_true] at h2
    exact h2.1

theorem checkAlerts_notifsFor (g : List String → RatesResult) (db : DBState)
    (j : ℕ) (h : inactiveId db j) :
    notifsFor (checkAlerts g db) j = notifsFor db j := by
  unfold checkAlerts
  split_ifs
  · rfl
  · rfl
  · refine foldl_processAlert_notifsFor _ _ _ db ?_
    intro a ha hid
    have hm := mem_getActiveAlertsBySymbols db _ a ha
    have := h a hm.1 hid
    rw [this] at hm
    exact Bool.false_ne_true hm.2

theorem runSweeps_preserves (gs : List (List String → RatesResult)) (j : ℕ) :
    ∀ db, inactiveId db j →
      inactiveId (runSweeps gs db) j ∧
        notifsFor (runSweeps gs db) j = notifsFor db j := by
  induction gs with
  | nil => exact fun db h => ⟨h, rfl⟩
  | cons g rest ih =>
    intro db h
    have h1 := checkAlerts_inactiveId g db j h
    have h2 := checkAlerts_notifsFor g db j h
    have h3 := ih (checkAlerts g db) h1
    exact ⟨h3.1, h3.2.trans h2⟩

/-! ### The concrete C3 scenario -/

/-- The alert of the scenario: `{symbol: BTC, condition: above,
target: 90000, active: true}`, id 1, owned by user 7. -/
def btcAlert : Alert := ⟨1, 7, "BTC", "above", 90000, true⟩

def dbC3 : DBState := ⟨[btcAlert], []⟩

def sweep95 : List String → RatesResult := fun _ => ⟨true, [("BTC", 95000)]⟩

def sweep96 : List String → RatesResult := fun _ => ⟨true, [("BTC", 96000)]⟩

def dbAfterSweep1 : DBState := checkAlerts sweep95 dbC3

/-- C3: a sweep at price 95000 creates exactly one notification for the BTC
alert and makes it inactive; the follow-up sweep at 96000 creates none; and
across any further sequence of serialized sweeps the alert never regains a
notification and is never reactivated. -/
theorem checkAlerts_claim_C3 :
    (dbAfterSweep1.userNotifications.map (·.alertId) = [1] ∧
      activeOfId dbAfterSweep1 1 = false) ∧
    (checkAlerts sweep96 dbAfterSweep1).userNotifications.map (·.alertId) = [1] ∧
    (∀ gs : List (List String → RatesResult),
      notifsFor (runSweeps gs dbAfterSweep1) 1 = notifsFor dbAfterSweep1 1 ∧
        inactiveId (runSweeps gs dbAfterSweep1) 1) := by
  refine ⟨⟨by decide, by decide⟩, by decide, ?_⟩
  intro gs
  have hinact : inactiveId dbAfterSweep1 1 := by unfold inactiveId; decide
  have h := runSweeps_preserves gs 1 dbAfterSweep1 hinact
  exact ⟨h.2, h.1⟩

/-! ## C4: setAlertInactive's guard and return value -/

/-- A store whose single BTC alert is already inactive. -/
def dbInactive : DBState := ⟨[⟨1, 7, "BTC", "above", 90000, false⟩], []⟩

/-- C4 counterexample: `setAlertInactive` on an alert that is already
inactive returns `true`, not `false` as the claim states — the update is not
guarded on the previous `isActive` value. -/
theorem setAlertInactive_claim_C4_counterexample :
    (∀ a ∈ dbInactive.userAlerts, a.isActive = false) ∧
      (setAlertInactive dbInactive 1).2 = true := by
  constructor
  · decide
  · decide

/-- C4 amended: `setAlertInactive(alertId)` returns `true` iff some alert
with the id exists — regardless of whether it was already inactive — and
unconditionally marks the first such alert inactive. -/
theorem setAlertInactive_claim_C4_amended (db : DBState) (i : ℕ) :
    (setAlertInactive db i).2 = db.userAlerts.any (fun a => a.id = i) ∧
      (setAlertInactive db i).1.userAlerts =
        (if db.userAlerts.any (fun a => a.id = i) then
          setAlertInactiveFirst db.userAlerts i
        else db.userAlerts) := by
  unfold setAlertInactive
  by_cases h : db.userAlerts.any (fun a => a.id = i) = true
  · rw [if_pos h]
    exact ⟨h.symm, by rw [if_pos h]⟩
  · rw [if_neg h]
    refine ⟨?_, by rw [if_neg h]⟩
    simp only [Bool.not_eq_true] at h
    exact h.symm

/-! ## C5: a persistent-store failure during a sweep

`checkAlerts` wraps the whole sweep loop in a single `try { ... } catch`:
a store rejection propagates out of the loop to that catch, which logs and
returns.  Each triggered alert performs two awaited store writes in order —
`createNotification`, then `setAlertInactive` — and either one can throw.
The failure-injected model `checkAlertsF` takes `fails k`, saying whether
the k-th store write of the sweep throws (writes are numbered in execution
order, two per triggered alert); the returned Bool records whether the
catch ran (an error was logged).  On a failure the sweep stops at exactly
that write: a `createNotification` throw persists nothing for the alert,
while a `setAlertInactive` throw leaves the just-created notification
persisted and the alert still active; later alerts are not visited. -/

def processAlertsF (fails : ℕ → Bool) (rates : List (String × ℚ)) :
    List Alert → ℕ → DBState → DBState × Bool
  | [], _, db => (db, false)
  | a :: rest, k, db =>
    match lookupRate a.symbol rates with
    | none => processAlertsF fails rates rest k db
    | some p =>
      if alertTriggered a p then
        if fails k then (db, true)
        else
          let db1 := createNotification db a.userId a.id (alertMessage a p)
          if fails (k + 1) then (db1, true)
          else processAlertsF fails rates rest (k + 2) (setAlertInactive db1 a.id).1
      else processAlertsF fails rates rest k db

def checkAlertsF (fails : ℕ → Bool) (getRates : List String → RatesResult)
    (db : DBState) : DBState × Bool :=
  if getActiveAlertSymbols db = [] then (db, false)
  else if (getRates (getActiveAlertSymbols db)).success = false then (db, false)
  else
    processAlertsF fails (getRates (getActiveAlertSymbols db)).rates
      (getActiveAlertsBySymbols db (getActiveAlertSymbols db)) 0 db

/-- Two active BTC alerts, both crossed at price 95000. -/
def dbTwoAlerts : DBState :=
  ⟨[⟨1, 7, "BTC", "above", 90000, true⟩, ⟨2, 8, "BTC", "above", 80000, true⟩], []⟩

/-- C5 counterexample: when a store write throws during the sweep, the
sweep does NOT continue with the remaining alerts.  With two triggered
alerts: a `createNotification` throw on the first (write 0) aborts with
nothing persisted; a `setAlertInactive` throw on the first (write 1) aborts
with the first alert's notification persisted but the alert still active;
either way the second alert is never processed — while the very same sweep
without a failure notifies both alerts. -/
theorem checkAlerts_claim_C5_counterexample :
    (checkAlertsF (fun k => k = 0) sweep95 dbTwoAlerts = (dbTwoAlerts, true)) ∧
      ((checkAlertsF (fun k => k = 1) sweep95
          dbTwoAlerts).1.userNotifications.map (·.alertId) = [1] ∧
        (checkAlertsF (fun k => k = 1) sweep95 dbTwoAlerts).1.userAlerts =
          dbTwoAlerts.userAlerts ∧
        (checkAlertsF (fun k => k = 1) sweep95 dbTwoAlerts).2 = true) ∧
      (checkAlerts sweep95 dbTwoAlerts).userNotifications.map (·.alertId) = [1, 2] := by
  refine ⟨by decide, ⟨by decide, by decide, by decide⟩, by decide⟩

/-- C5 amended: a store failure while handling a triggered alert is caught
(and logged) inside `checkAlerts` itself and the sweep aborts, leaving every
remaining alert of the batch untouched until the next sweep.  What survives
of the failing alert depends on which write threw: a `createNotification`
throw persists nothing, while a `setAlertInactive` throw leaves the
notification persisted and the alert list — hence its active flag —
unchanged. -/
theorem checkAlerts_claim_C5_amended :
    (∀ (fails : ℕ → Bool) (rates : List (String × ℚ)) (a : Alert)
        (rest : List Alert) (k : ℕ) (db : DBState) (p : ℚ),
      lookupRate a.symbol rates = some p → alertTriggered a p = true →
      fails k = true →
      processAlertsF fails rates (a :: rest) k db = (db, true)) ∧
    (∀ (fails : ℕ → Bool) (rates : List (String × ℚ)) (a : Alert)
        (rest : List Alert) (k : ℕ) (db : DBState) (p : ℚ),
      lookupRate a.symbol rates = some p → alertTriggered a p = true →
      fails k = false → fails (k + 1) = true →
      processAlertsF fails rates (a :: rest) k db =
          (createNotification db a.userId a.id (alertMessage a p), true) ∧
        (createNotification db a.userId a.id (alertMessage a p)).userAlerts =
          db.userAlerts) := by
  constructor
  · intro fails rates a rest k db p hp ht hf
    simp only [processAlertsF, hp, ht, hf, if_true]
  · intro fails rates a rest k db p hp ht hf0 hf1
    refine ⟨?_, rfl⟩
    simp only [processAlertsF, hp, ht, hf0, hf1, if_true, Bool.false_eq_true,
      if_false]

theorem checkAlerts_claim_C5_amended_witness :
    (processAlertsF (fun k => k = 0) [("BTC", (95000 : ℚ))]
        [⟨1, 7, "BTC", "above", 90000, true⟩, ⟨2, 8, "BTC", "above", 80000, true⟩]
        0 dbTwoAlerts = (dbTwoAlerts, true)) ∧
      (processAlertsF (fun k => k = 1) [("BTC", (95000 : ℚ))]
          [⟨1, 7, "BTC", "above", 90000, true⟩, ⟨2, 8, "BTC", "above", 80000, true⟩]
          0 dbTwoAlerts =
          (createNotification dbTwoAlerts 7 1
            (alertMessage ⟨1, 7, "BTC", "above", 90000, true⟩ 95000), true) ∧
        (createNotification dbTwoAlerts 7 1
          (alertMessage ⟨1, 7, "BTC", "above", 90000, true⟩ 95000)).userAlerts =
          dbTwoAlerts.userAlerts) :=
  ⟨checkAlerts_claim_C5_amended.1 (fun k => k = 0) [("BTC", 95000)]
      ⟨1, 7, "BTC", "above", 90000, true⟩ [⟨2, 8, "BTC", "above", 80000, true⟩] 0
      dbTwoAlerts 95000 (by decide) (by decide) (by decide),
    checkAlerts_claim_C5_amended.2 (fun k => k = 1) [("BTC", 95000)]
      ⟨1, 7, "BTC", "above", 90000, true⟩ [⟨2, 8, "BTC", "above", 80000, true⟩] 0
      dbTwoAlerts 95000 (by decide) (by decide) (by decide) (by decide)⟩

/-! ## WebSocketServiceClass (src/unnamed/part_003)

State machine of the subscription hub.  `wsState` mirrors `this.ws`:
`none` = no socket (`null`), `some false` = a socket in CONNECTING state,
`some true` = OPEN.  `sent` is the trace of control messages written to the
socket; `connects` counts `new WebSocket(url)` constructions.  The
`setTimeout` reconnect is modelled by the `reconnectPending` flag plus an
explicit timer-fire event. -/

inductive WsMsg where
  | subMsg (symbols : List String)
  | unsubMsg (symbols : List String)
deriving DecidableEq

structure HubState where
  wsState : Option Bool
  handlers : List (String × List ℕ)
  subscribedSymbols : List String
  reconnectPending : Bool
  reconnectAttempts : ℕ
  connecting : Bool
  connects : ℕ
  sent : List WsMsg
deriving DecidableEq

def maxReconnectAttempts : ℕ := 10

def initHub : HubState := ⟨none, [], [], false, 0, false, 0, []⟩

/-- `connect()`: returns immediately if the socket is OPEN or a connect is
in flight; otherwise constructs a new socket (CONNECTING). -/
def hubConnect (s : HubState) : HubState :=
  if s.wsState = some true ∨ s.connecting = true then s
  else { s with connecting := true, wsState := some false, connects := s.connects + 1 }

/-- `sendSubscribeRates()`: no-op unless the socket is OPEN and the tracked
set is non-empty; otherwise sends one "subscribe:rates" message listing all
tracked symbols. -/
def sendSubscribeRates (s : HubState) : HubState :=
  if s.wsState ≠ some true then s
  else if s.subscribedSymbols = [] then s
  else { s with sent := s.sent ++ [WsMsg.subMsg s.subscribedSymbols] }

/-- `sendUnsubscribeRates(symbols)`. -/
def sendUnsubscribeRates (syms : List String) (s : HubState) : HubState :=
  if s.wsState ≠ some true then s
  else if syms = [] then s
  else { s with sent := s.sent ++ [WsMsg.unsubMsg syms] }

/-- `ws.onopen`: fires on a CONNECTING socket; clears `connecting`, resets
the attempt counter, then sends the subscribe message. -/
def hubOnOpen (s : HubState) : HubState :=
  if s.wsState = some false then
    sendSubscribeRates
      { s with connecting := false, reconnectAttempts := 0, wsState := some true }
  else s

/-- `ws.onclose`: clears `connecting`, nulls the socket, and schedules a
reconnect timer only while symbols remain tracked and the attempt counter is
below the maximum. -/
def hubOnClose (s : HubState) : HubState :=
  if s.wsState = none then s
  else
    if s.subscribedSymbols ≠ [] ∧ s.reconnectAttempts < maxReconnectAttempts then
      { s with connecting := false, wsState := none, reconnectPending := true }
    else { s with connecting := false, wsState := none }

/-- The scheduled reconnect timer firing: increments the attempt counter and
calls `connect()`. -/
def hubTimerFire (s : HubState) : HubState :=
  if s.reconnectPending then
    hubConnect
      { s with reconnectPending := false, reconnectAttempts := s.reconnectAttempts + 1 }
  else s

def lookupHandlers (sym : String) : List (String × List ℕ) → Option (List ℕ)
  | [] => none
  | p :: rest => if p.1 = sym then some p.2 else lookupHandlers sym rest

def setHandlers (sym : String) (v : List ℕ) (l : List (String × List ℕ)) :
    List (String × List ℕ) :=
  l.map (fun p => if p.1 = sym then (sym, v) else p)

def removeHandlers (sym : String) (l : List (String × List ℕ)) :
    List (String × List ℕ) :=
  l.filter (fun p => p.1 ≠ sym)

/-- `subscribe(symbol, handler)`: registers the handler (a JS `Set` add —
no duplicate), computes `wasEmpty` from the tracked set before adding the
symbol, then either connects (tracked set was empty) or re-sends the
subscribe list. -/
def hubSubscribe (sym : String) (h : ℕ) (s : HubState) : HubState :=
  let handlers1 :=
    match lookupHandlers sym s.handlers with
    | none => s.handlers ++ [(sym, [h])]
    | some hs => setHandlers sym (if h ∈ hs then hs else hs ++ [h]) s.handlers
  let wasEmpty := s.subscribedSymbols = []
  let symbols1 :=
    if sym ∈ s.subscribedSymbols then s.subscribedSymbols
    else s.subscribedSymbols ++ [sym]
  let s1 := { s with handlers := handlers1, subscribedSymbols := symbols1 }
  if wasEmpty then hubConnect s1 else sendSubscribeRates s1

/-- The closure returned by `subscribe`: captures `(symbol, handler)`;
deletes the handler, and if the symbol's set became empty, drops the symbol
from both maps and sends one unsubscribe message for that symbol alone. -/
def hubUnsubscribe (sym : String) (h : ℕ) (s : HubState) : HubState :=
  match lookupHandlers sym s.handlers with
  | none => s
  | some hs =>
    if hs.erase h = [] then
      sendUnsubscribeRates [sym]
        { s with handlers := removeHandlers sym s.handlers,
                 subscribedSymbols := s.subscribedSymbols.erase sym }
    else { s with handlers := setHandlers sym (hs.erase h) s.handlers }

/-- The handlers invoked for a `rate:update` message carrying `sym`. -/
def hubDispatch (sym : String) (s : HubState) : List ℕ :=
  (lookupHandlers sym s.handlers).getD []

inductive HubEvent where
  | esub (sym : String) (h : ℕ)
  | eunsub (sym : String) (h : ℕ)
  | eopen
  | eclose
  | etimer
deriving DecidableEq

def hubStep (s : HubState) : HubEvent → HubState
  | .esub sym h => hubSubscribe sym h s
  | .eunsub sym h => hubUnsubscribe sym h s
  | .eopen => hubOnOpen s
  | .eclose => hubOnClose s
  | .etimer => hubTimerFire s

def hubRun (es : List HubEvent) (s : HubState) : HubState := es.foldl hubStep s

/-! ### C7: two subscribers on one symbol share one connection -/

def c7AfterOpen : HubState :=
  hubRun [HubEvent.esub "BTC" 1, HubEvent.esub "BTC" 2, HubEvent.eopen] initHub

def c7AfterUnsub1 : HubState := hubStep c7AfterOpen (HubEvent.eunsub "BTC" 1)

def c7AfterUnsub2 : HubState := hubStep c7AfterUnsub1 (HubEvent.eunsub "BTC" 2)

/-- C7: from a fresh hub, `subscribe("BTC", h1)` then `subscribe("BTC", h2)`
(connection opening afterwards) performs exactly one connect and sends
exactly one subscribe message listing `["BTC"]`; running h1's unsubscribe
token leaves h2 still receiving BTC updates and sends nothing; running h2's
token afterwards sends one unsubscribe for `["BTC"]` alone and empties the
tracked-symbol set. -/
theorem hub_claim_C7 :
    c7AfterOpen.connects = 1 ∧
      c7AfterOpen.sent = [WsMsg.subMsg ["BTC"]] ∧
      c7AfterUnsub1.sent = [WsMsg.subMsg ["BTC"]] ∧
      hubDispatch "BTC" c7AfterUnsub1 = [2] ∧
      c7AfterUnsub2.sent = [WsMsg.subMsg ["BTC"], WsMsg.unsubMsg ["BTC"]] ∧
      c7AfterUnsub2.subscribedSymbols = [] := by
  refine ⟨by decide, by decide, by decide, by decide, by decide, by decide⟩

/-! ### C8: behaviour after the reconnect budget is exhausted -/

/-- One failed reconnect cycle: the pending timer fires (attempt++ and a new
socket), which then closes. -/
def failCycle : List HubEvent := [HubEvent.etimer, HubEvent.eclose]

/-- A hub that subscribed once and then suffered the initial close plus ten
failed reconnect cycles: the attempt counter sits at the maximum. -/
def c8Exhausted : HubState :=
  hubRun ([HubEvent.esub "BTC" 1, HubEvent.eclose] ++
    (List.replicate 10 failCycle).flatten) initHub

def c8AfterSub : HubState := hubStep c8Exhausted (HubEvent.esub "ETH" 2)

/-- C8 counterexample: with the reconnect budget exhausted (counter = 10, no
timer pending), a fresh `subscribe()` call does NOT reset the attempt
counter and does not resume reconnection: the counter stays at 10, no timer
is scheduled and no new socket is constructed. -/
theorem hub_claim_C8_counterexample :
    c8Exhausted.reconnectAttempts = maxReconnectAttempts ∧
      c8Exhausted.reconnectPending = false ∧
      c8AfterSub.reconnectAttempts = maxReconnectAttempts ∧
      c8AfterSub.reconnectPending = false ∧
      c8AfterSub.connects = c8Exhausted.connects := by
  refine ⟨by decide, by decide, by decide, by decide, by decide⟩

theorem hubConnect_reconnectAttempts (s : HubState) :
    (hubConnect s).reconnectAttempts = s.reconnectAttempts := by
  unfold hubConnect
  split_ifs <;> rfl

theorem sendSubscribeRates_reconnectAttempts (s : HubState) :
    (sendSubscribeRates s).reconnectAttempts = s.reconnectAttempts := by
  unfold sendSubscribeRates
  split_ifs <;> rfl

theorem sendSubscribeRates_handlers (s : HubState) :
    (sendSubscribeRates s).handlers = s.handlers := by
  unfold sendSubscribeRates
  split_ifs <;> rfl

theorem sendUnsubscribeRates_handlers (syms : List String) (s : HubState) :
    (sendUnsubscribeRates syms s).handlers = s.handlers := by
  unfold sendUnsubscribeRates
  split_ifs <;> rfl

/-- C8 amended: once the counter has reached the maximum, `onclose`
schedules no further reconnect; a `subscribe()` call never changes the
attempt counter (it is NOT reset, contrary to the claim); the counter is
reset to 0 only when a connection actually opens. -/
theorem hub_claim_C8_amended :
    (∀ s : HubState, maxReconnectAttempts ≤ s.reconnectAttempts →
        (hubOnClose s).reconnectPending = s.reconnectPending) ∧
      (∀ (sym : String) (h : ℕ) (s : HubState),
        (hubSubscribe sym h s).reconnectAttempts = s.reconnectAttempts) ∧
      (∀ s : HubState, s.wsState = some false →
        (hubOnOpen s).reconnectAttempts = 0) := by
  refine ⟨?_, ?_, ?_⟩
  · intro s hmax
    unfold hubOnClose
    split_ifs with h1 h2
    · rfl
    · exact absurd h2.2 (by omega)
    · rfl
  · intro sym h s
    simp only [hubSubscribe]
    split_ifs <;>
      simp [hubConnect_reconnectAttempts, sendSubscribeRates_reconnectAttempts]
  · intro s hconn
    simp [hubOnOpen, hconn, sendSubscribeRates_reconnectAttempts]

/-- A concrete exhausted hub used to witness the amended C8 theorem. -/
def c8WitnessState : HubState :=
  ⟨none, [("BTC", [1])], ["BTC"], false, 10, false, 11, []⟩

theorem hub_claim_C8_amended_witness :
    (hubOnClose c8WitnessState).reconnectPending = c8WitnessState.reconnectPending ∧
      (hubSubscribe "ETH" 2 c8WitnessState).reconnectAttempts =
        c8WitnessState.reconnectAttempts ∧
      (hubOnOpen { c8WitnessState with wsState := some false }).reconnectAttempts = 0 :=
  ⟨hub_claim_C8_amended.1 c8WitnessState (by decide),
    hub_claim_C8_amended.2.1 "ETH" 2 c8WitnessState,
    hub_claim_C8_amended.2.2 _ (by decide)⟩

/-! ### C10: the unsubscribe token is idempotent -/

theorem lookupHandlers_mem (sym : String) (l : List (String × List ℕ))
    (v : List ℕ) (h : lookupHandlers sym l = some v) : (sym, v) ∈ l := by
  induction l with
  | nil => simp [lookupHandlers] at h
  | cons p rest ih =>
    simp only [lookupHandlers] at h
    by_cases hp : p.1 = sym
    · rw [if_pos hp] at h
      injection h with hv
      subst hv
      have hpe : (sym, p.2) = p := by rw [← hp]
      rw [hpe]
      exact List.mem_cons_self _ _
    · rw [if_neg hp] at h
      exact List.mem_cons_of_mem _ (ih h)

theorem lookupHandlers_removeHandlers (sym : String) (l : List (String × List ℕ)) :
    lookupHandlers sym (removeHandlers sym l) = none := by
  induction l with
  | nil => rfl
  | cons p rest ih =>
    by_cases hp : p.1 = sym
    · simpa [removeHandlers, List.filter_cons, hp] using ih
    · simpa [removeHandlers, List.filter_cons, lookupHandlers, hp] using ih

theorem lookupHandlers_setHandlers (sym : String) (v : List ℕ)
    (l : List (String × List ℕ)) (w : List ℕ)
    (h : lookupHandlers sym l = some w) :
    lookupHandlers sym (setHandlers sym v l) = some v := by
  induction l with
  | nil => simp [lookupHandlers] at h
  | cons p rest ih =>
    simp only [lookupHandlers, setHandlers, List.map_cons] at h ⊢
    by_cases hp : p.1 = sym
    · simp [hp, lookupHandlers]
    · simp only [hp, if_false]
      rw [if_neg hp] at h
      simpa [setHandlers, lookupHandlers, hp] using ih h

theorem setHandlers_setHandlers (sym : String) (v : List ℕ)
    (l : List (String × List ℕ)) :
    setHandlers sym v (setHandlers sym v l) = setHandlers sym v l := by
  unfold setHandlers
  rw [List.map_map]
  refine List.map_congr_left ?_
  intro p _
  by_cases hp : p.1 = sym <;> simp [hp]

theorem not_mem_erase_self {a : ℕ} : ∀ (l : List ℕ), l.Nodup → a ∉ l.erase a := by
  intro l hnd
  induction l with
  | nil => simp
  | cons b rest ih =>
    rw [List.erase_cons]
    by_cases hb : b = a
    · subst hb
      simp only [beq_self_eq_true, if_true]
      exact (List.nodup_cons.mp hnd).1
    · have hbeq : (b == a) = false := by simp [hb]
      rw [hbeq]
      simp only [Bool.false_eq_true, if_false]
      intro hmem
      rcases List.mem_cons.mp hmem with h1 | h1
      · exact hb h1.symm
      · exact ih (List.nodup_cons.mp hnd).2 h1

theorem hubUnsubscribe_of_lookup_none (sym : String) (h : ℕ) (s : HubState)
    (hl : lookupHandlers sym s.handlers = none) : hubUnsubscribe sym h s = s := by
  unfold hubUnsubscribe
  rw [hl]

theorem hubUnsubscribe_of_last (sym : String) (h : ℕ) (s : HubState)
    (hs : List ℕ) (hl : lookupHandlers sym s.handlers = some hs)
    (he : hs.erase h = []) :
    hubUnsubscribe sym h s =
      sendUnsubscribeRates [sym]
        { s with handlers := removeHandlers sym s.handlers,
                 subscribedSymbols := s.subscribedSymbols.erase sym } := by
  unfold hubUnsubscribe
  rw [hl]
  exact if_pos he

theorem hubUnsubscribe_of_keep (sym : String) (h : ℕ) (s : HubState)
    (hs : List ℕ) (hl : lookupHandlers sym s.handlers = some hs)
    (he : hs.erase h ≠ []) :
    hubUnsubscribe sym h s =
      { s with handlers := setHandlers sym (hs.erase h) s.handlers } := by
  unfold hubUnsubscribe
  rw [hl]
  exact if_neg he

/-- C10: the unsubscribe token is idempotent — once it has run, running the
exact same token again changes nothing (same handler map, same tracked-symbol
set, and no second unsubscribe message), in any hub state whose handler sets
are duplicate-free (the JS `Set` invariant). -/
theorem hub_claim_C10 (sym : String) (h : ℕ) (s : HubState)
    (hwf : ∀ p ∈ s.handlers, p.2.Nodup) :
    hubUnsubscribe sym h (hubUnsubscribe sym h s) = hubUnsubscribe sym h s := by
  cases hl : lookupHandlers sym s.handlers with
  | none =>
    rw [hubUnsubscribe_of_lookup_none sym h s hl]
    exact hubUnsubscribe_of_lookup_none sym h s hl
  | some hs =>
    have hnd : hs.Nodup := hwf _ (lookupHandlers_mem sym s.handlers hs hl)
    by_cases he : hs.erase h = []
    · have h1 := hubUnsubscribe_of_last sym h s hs hl he
      rw [h1]
      apply hubUnsubscribe_of_lookup_none
      rw [sendUnsubscribeRates_handlers]
      exact lookupHandlers_removeHandlers sym s.handlers
    · have h1 := hubUnsubscribe_of_keep sym h s hs hl he
      have hne : (hs.erase h).erase h = hs.erase h :=
        List.erase_of_not_mem (not_mem_erase_self hs hnd)
      have hl2 : lookupHandlers sym
          (({ s with handlers := setHandlers sym (hs.erase h) s.handlers } :
            HubState)).handlers = some (hs.erase h) :=
        lookupHandlers_setHandlers sym (hs.erase h) s.handlers hs hl
      have h2 := hubUnsubscribe_of_keep sym h
        ({ s with handlers := setHandlers sym (hs.erase h) s.handlers })
        (hs.erase h) hl2 (by rw [hne]; exact he)
      rw [h1, h2, hne, setHandlers_setHandlers]

/-- C10 witness: a concrete well-formed state on which the theorem applies. -/
theorem hub_claim_C10_witness :
    hubUnsubscribe "BTC" 1 (hubUnsubscribe "BTC" 1 c8WitnessState) =
      hubUnsubscribe "BTC" 1 c8WitnessState :=
  hub_claim_C10 "BTC" 1 c8WitnessState (by decide)

/-! ## CoinLayerService.getLiveRates / getMockRates -/

/-- The static reference-price table of `getMockRates` (CoinLayerService.js,
"Realistic prices based on real-world data"). -/
def mockRatesTable : List (String × ℚ) :=
  [("USD", 1), ("EUR", 92/100), ("GBP", 79/100), ("JPY", 1495/10),
   ("CNY", 723/100), ("RUB", 915/10),
   ("BTC", 97240), ("ETH", 35218/10),
   ("USDT", 1), ("USDC", 1), ("DAI", 1),
   ("BNB", 1365/2), ("XRP", 57/20), ("SOL", 1142/5), ("ADA", 49/50),
   ("DOT", 157/20), ("DOGE", 19/50), ("MATIC", 67/100), ("AVAX", 181/5),
   ("LINK", 463/20), ("UNI", 269/20), ("LTC", 524/5), ("ATOM", 41/4),
   ("NEAR", 28/5), ("FTM", 22/25), ("ALGO", 7/20)]

/-- `getMockRates(symbols)`: the whole table for an empty list, otherwise
the requested symbols that appear in the table (unknown symbols absent). -/
def getMockRates (symbols : List String) : List (String × ℚ) :=
  if symbols = [] then mockRatesTable
  else
    symbols.foldl
      (fun acc s =>
        match lookupRate s mockRatesTable with
        | some v => acc ++ [(s, v)]
        | none => acc) []

structure UpstreamLive where
  success : Bool
  rates : List (String × ℚ)

structure LiveRatesResult where
  success : Bool
  rates : List (String × ℚ)
  mock : Bool
deriving DecidableEq

/-- JS object assignment `rates.USD = 1.0`: overwrite in place if the key
exists, else append. -/
def setRate (k : String) (v : ℚ) (l : List (String × ℚ)) : List (String × ℚ) :=
  if l.any (fun p => p.1 = k) then l.map (fun p => if p.1 = k then (k, v) else p)
  else l ++ [(k, v)]

/-- The `try` body of `getLiveRates`: a failed fetch (`upstream = none`) or
a non-success payload throws; on success the upstream rates are returned,
with `USD` forced to 1 when it was requested. -/
def getLiveRatesCore (symbols : List String) (upstream : Option UpstreamLive) :
    Except String LiveRatesResult :=
  match upstream with
  | none => Except.error "fetch failed"
  | some data =>
    if data.success = false then Except.error "Failed to fetch live rates"
    else
      Except.ok
        { success := true,
          rates := if "USD" ∈ symbols then setRate "USD" 1 data.rates else data.rates,
          mock := false }

/-- `getLiveRates` including its `catch`: every error is converted into a
mock-rate result, so the function never rejects. -/
def getLiveRatesTry (symbols : List String) (upstream : Option UpstreamLive) :
    Except String LiveRatesResult :=
  match getLiveRatesCore symbols upstream with
  | Except.ok r => Except.ok r
  | Except.error _ =>
    Except.ok { success := false, rates := getMockRates symbols, mock := true }

def getLiveRates (symbols : List String) (upstream : Option UpstreamLive) :
    LiveRatesResult :=
  match getLiveRatesTry symbols upstream with
  | Except.ok r => r
  | Except.error _ => { success := false, rates := [], mock := true }

/-- C6 counterexample: for the empty symbol list with a failing upstream,
`getLiveRates` returns the ENTIRE mock table (26 rates), not an empty rate
map as the claim states. -/
theorem getLiveRates_claim_C6_counterexample :
    (getLiveRates [] none).rates = mockRatesTable ∧ mockRatesTable ≠ [] := by
  refine ⟨rfl, by decide⟩

/-- C6 amended: `getLiveRates` never throws — the catch converts every
upstream failure into a mock-rate result — but for an empty symbol list it
returns the full mock table on failure and passes through all upstream
rates on success, never an empty map built from the (empty) request. -/
theorem getLiveRates_claim_C6_amended :
    (∀ (symbols : List String) (upstream : Option UpstreamLive),
        (getLiveRatesTry symbols upstream).isOk = true) ∧
      (getLiveRates [] none).rates = getMockRates [] ∧
      getMockRates [] = mockRatesTable ∧
      (∀ data : UpstreamLive, data.success = true →
        (getLiveRates [] (some data)).rates = data.rates) := by
  refine ⟨?_, rfl, rfl, ?_⟩
  · intro symbols upstream
    cases upstream with
    | none => rfl
    | some data =>
      by_cases hd : data.success = false
      · simp [getLiveRatesTry, getLiveRatesCore, hd, Except.isOk, Except.toBool]
      · simp [getLiveRatesTry, getLiveRatesCore, hd, Except.isOk, Except.toBool]
  · intro data hd
    simp [getLiveRates, getLiveRatesTry, getLiveRatesCore, hd]

theorem getLiveRates_claim_C6_amended_witness :
    (getLiveRatesTry ["BTC"] none).isOk = true ∧
      (getLiveRates [] (some ⟨true, [("BTC", 95000)]⟩)).rates = [("BTC", 95000)] :=
  ⟨getLiveRates_claim_C6_amended.1 ["BTC"] none,
    getLiveRates_claim_C6_amended.2.2.2 ⟨true, [("BTC", 95000)]⟩ rfl⟩

/-! ## Gap-filling (C9, and groundwork for C1)

Two gap-fill passes exist in the sources: the forward/backward loops of
`getTimeSeries` over the date range (CoinLayerService.js), and the
forward/backward positive-fill of `ratesToHistory` (src/unnamed/part_004). -/

/-- The values accumulated by `getTimeSeries`'s per-day loop: only positive
numeric rates are retained (`rawRates`). -/
def sanitizeRate (x : Option ℚ) : Option ℚ :=
  match x with
  | some r => if 0 < r then some r else none
  | none => none

/-- Forward pass of `getTimeSeries`: `if (raw[d] != null) last = raw[d];
rates[d] = raw[d] ?? last`, building the rates object in date order. -/
def forwardFillDates (raw : ℕ → Option ℚ) : Option ℚ → List ℕ → List (ℕ × Option ℚ)
  | _, [] => []
  | last, d :: rest =>
    match raw d with
    | some v => (d, some v) :: forwardFillDates raw (some v) rest
    | none => (d, last) :: forwardFillDates raw last rest

/-- Backward pass of `getTimeSeries`, scanning from the last date down:
`if (raw[d] != null) first = raw[d]; if (first != null && (rates[d] == null
|| rates[d] <= 0)) rates[d] = first`.  Returns the final carried value and
the updated entries. -/
def backwardFillDates (raw : ℕ → Option ℚ) :
    Option ℚ → List (ℕ × Option ℚ) → Option ℚ × List (ℕ × Option ℚ)
  | first, [] => (first, [])
  | first, (d, v) :: rest =>
    let fr := backwardFillDates raw first rest
    let first2 := match raw d with | some r => some r | none => fr.1
    let v1 :=
      match first2 with
      | none => v
      | some f =>
        match v with
        | none => some f
        | some x => if x ≤ 0 then some f else some x
    (first2, (d, v1) :: fr.2)

/-- `PricePoint` of src/unnamed/part_004. -/
structure PricePoint where
  timestamp : ℕ
  price : ℚ
deriving DecidableEq

/-- One directional pass of `ratesToHistory`'s fill: `if (p.price > 0)
lastGood = p.price; else if (lastGood > 0) p.price = lastGood`. -/
def ffillAux (lastGood : ℚ) : List PricePoint → List PricePoint
  | [] => []
  | p :: rest =>
    if 0 < p.price then p :: ffillAux p.price rest
    else if 0 < lastGood then { p with price := lastGood } :: ffillAux lastGood rest
    else p :: ffillAux lastGood rest

def forwardFillPoints (l : List PricePoint) : List PricePoint := ffillAux 0 l

/-- The backward loop (`for i = n-1 downto 0`) with the same body is the
forward pass applied to the reversed list. -/
def backwardFillPoints (l : List PricePoint) : List PricePoint :=
  (ffillAux 0 l.reverse).reverse

def fillPoints (l : List PricePoint) : List PricePoint :=
  backwardFillPoints (forwardFillPoints l)

theorem forwardFillDates_allgood (raw : ℕ → Option ℚ) :
    ∀ (dates : List ℕ) (last : Option ℚ),
      (∀ d ∈ dates, ∃ r, raw d = some r ∧ 0 < r) →
      forwardFillDates raw last dates = dates.map (fun d => (d, raw d)) := by
  intro dates
  induction dates with
  | nil => intro last _; rfl
  | cons d rest ih =>
    intro last hall
    obtain ⟨r, hr, _⟩ := hall d (List.mem_cons_self _ _)
    simp only [forwardFillDates, hr, List.map_cons]
    rw [ih (some r) (fun x hx => hall x (List.mem_cons_of_mem _ hx))]

theorem backwardFillDates_allgood (raw : ℕ → Option ℚ) :
    ∀ (l : List (ℕ × Option ℚ)) (first : Option ℚ),
      (∀ p ∈ l, ∃ r, p.2 = some r ∧ 0 < r ∧ raw p.1 = some r) →
      (backwardFillDates raw first l).2 = l := by
  intro l
  induction l with
  | nil => intro first _; rfl
  | cons p rest ih =>
    intro first hall
    obtain ⟨r, hp2, hrpos, hraw⟩ := hall p (List.mem_cons_self _ _)
    have hrest := ih first (fun x hx => hall x (List.mem_cons_of_mem _ hx))
    obtain ⟨d, v⟩ := p
    simp only at hp2 hraw
    subst hp2
    simp only [backwardFillDates, hraw]
    rw [if_neg (by exact absurd · (not_le.mpr hrpos))]
    simp [hrest]

theorem ffillAux_allpos : ∀ (l : List PricePoint) (g : ℚ),
    (∀ p ∈ l, 0 < p.price) → ffillAux g l = l := by
  intro l
  induction l with
  | nil => intro g _; rfl
  | cons p rest ih =>
    intro g hall
    have hp := hall p (List.mem_cons_self _ _)
    simp only [ffillAux, if_pos hp]
    rw [ih p.price (fun x hx => hall x (List.mem_cons_of_mem _ hx))]

/-- C9: gap-filling an already gap-free series is a no-op, for both fill
implementations.  With a positive raw rate for every day, the forward pass
of `getTimeSeries` reproduces exactly the raw values and the backward pass
changes nothing; and `ratesToHistory`'s two passes return an all-positive
point list unchanged. -/
theorem gapFill_claim_C9 (dates : List ℕ) (raw : ℕ → Option ℚ) (live : Option ℚ)
    (pts : List PricePoint)
    (hraw : ∀ d ∈ dates, ∃ r, raw d = some r ∧ 0 < r)
    (hpts : ∀ p ∈ pts, 0 < p.price) :
    forwardFillDates raw live dates = dates.map (fun d => (d, raw d)) ∧
      (backwardFillDates raw live (forwardFillDates raw live dates)).2 =
        dates.map (fun d => (d, raw d)) ∧
      fillPoints pts = pts := by
  have hfwd := forwardFillDates_allgood raw dates live hraw
  refine ⟨hfwd, ?_, ?_⟩
  · rw [hfwd]
    refine backwardFillDates_allgood raw _ live ?_
    intro p hp
    obtain ⟨d, hd, hdp⟩ := List.mem_map.mp hp
    obtain ⟨r, hr, hrpos⟩ := hraw d hd
    subst hdp
    exact ⟨r, by simpa using hr, hrpos, hr⟩
  · unfold fillPoints forwardFillPoints backwardFillPoints
    rw [ffillAux_allpos pts 0 hpts]
    rw [ffillAux_allpos pts.reverse 0 (fun p hp => hpts p (List.mem_reverse.mp hp))]
    exact List.reverse_reverse pts

/-! ## generateRealisticHistoricalData (CoinLayerService.js)

The `Math.random()` stream is a parameter `rand`; call order in the source:
index 0 for the volatility draw, 1 for the trend direction, 2 for the trend
strength, and `3 + i` for the i-th loop iteration's random walk. -/

/-- JS `Number(x.toFixed(0))` rounding step: round half away from zero for
positive inputs (all uses here are positive). -/
def jsRound (x : ℚ) : ℤ := ⌊x + 1/2⌋

/-- `Number(x.toFixed(k))` for a nonnegative rational: round to `k` decimal
digits. -/
def toFixedQ (x : ℚ) (k : ℕ) : ℚ := (jsRound (x * 10 ^ k) : ℚ) / 10 ^ k

/-- The precision chosen by the source:
`currentPrice < 1 ? 4 : currentPrice < 100 ? 2 : 0`. -/
def precOf (c : ℚ) : ℕ := if c < 1 then 4 else if c < 100 then 2 else 0

def fiatSymbols : List String := ["USD", "EUR", "GBP", "JPY", "CNY", "RUB"]
def stablecoinSymbols : List String := ["USDT", "USDC"]
def majorCryptoSymbols : List String := ["BTC", "ETH"]

/-- Volatility by asset class, with the random draw `r`. -/
def dailyVolatility (symbol : String) (r : ℚ) : ℚ :=
  if symbol ∈ fiatSymbols then 2/1000 + r * (3/1000)
  else if symbol ∈ stablecoinSymbols then 1/10000 + r * (9/10000)
  else if symbol ∈ majorCryptoSymbols then 2/100 + r * (3/100)
  else 3/100 + r * (5/100)

/-- One backward step of the walk: reverse trend, random walk, mean
reversion, then the clamp `[0.5 × current, 1.8 × current]`. -/
def walkNext (c vol dir strength r price : ℚ) : ℚ :=
  min
    (max
      (price + (-dir * strength * price) + ((r - 1/2) * 2 * vol * price) +
        ((c - price) * (5/100)))
      (c * (1/2)))
    (c * (9/5))

/-- The backward walk: pushes the current price then steps; `i` is the
position in the random stream. -/
def walk (c vol dir strength : ℚ) (rand : ℕ → ℚ) : ℕ → ℕ → ℚ → List ℚ
  | 0, _, _ => []
  | n + 1, i, price =>
    price :: walk c vol dir strength rand n (i + 1)
      (walkNext c vol dir strength (rand i) price)

/-- `generateRealisticHistoricalData(symbol, dates, currentPrice)`: backward
walk from the anchor, reversed to chronological order, rounded to the
magnitude-scaled precision, keyed by the dates in order. -/
def generateRealisticHistoricalData (symbol : String) (dates : List ℕ)
    (currentPrice : ℚ) (rand : ℕ → ℚ) : List (ℕ × ℚ) :=
  let vol := dailyVolatility symbol (rand 0)
  let dir : ℚ := if 1/2 < rand 1 then 1 else -1
  let strength : ℚ := 1/1000 + rand 2 * (2/1000)
  let temp := walk currentPrice vol dir strength rand dates.length 3 currentPrice
  (dates.zip temp.reverse).map (fun p => (p.1, toFixedQ p.2 (precOf currentPrice)))

theorem walk_length (c vol dir strength : ℚ) (rand : ℕ → ℚ) :
    ∀ (n i : ℕ) (p : ℚ), (walk c vol dir strength rand n i p).length = n := by
  intro n
  induction n with
  | zero => intro i p; rfl
  | succ m ih =>
    intro i p
    simp only [walk, List.length_cons, ih]

theorem walk_head (c vol dir strength : ℚ) (rand : ℕ → ℚ) (n i : ℕ) (p : ℚ)
    (hn : n ≠ 0) : (walk c vol dir strength rand n i p).head? = some p := by
  cases n with
  | zero => exact absurd rfl hn
  | succ m => rfl

theorem walk_ge (c vol dir strength : ℚ) (rand : ℕ → ℚ) (hc : 0 < c) :
    ∀ (n i : ℕ) (p : ℚ), c / 2 ≤ p →
      ∀ x ∈ walk c vol dir strength rand n i p, c / 2 ≤ x := by
  intro n
  induction n with
  | zero => intro i p _ x hx; simp [walk] at hx
  | succ m ih =>
    intro i p hp x hx
    simp only [walk] at hx
    rcases List.mem_cons.mp hx with h1 | h1
    · subst h1; exact hp
    · refine ih (i + 1) _ ?_ x h1
      unfold walkNext
      have hmm : c * (1/2) ≤ c * (9/5) := by nlinarith
      calc c / 2 = c * (1/2) := by ring
        _ ≤ min (max (p + (-dir * strength * p) + ((rand i - 1/2) * 2 * vol * p) +
              ((c - p) * (5/100))) (c * (1/2))) (c * (9/5)) :=
            le_min (le_max_right _ _) hmm

theorem precOf_key (c : ℚ) (h : 1/10000 ≤ c) : 1 ≤ c * 10 ^ precOf c := by
  unfold precOf
  split_ifs with h1 h2
  · calc (1 : ℚ) = (1/10000) * 10 ^ 4 := by norm_num
      _ ≤ c * 10 ^ 4 := by
          exact mul_le_mul_of_nonneg_right h (by norm_num)
  · have hc1 : (1 : ℚ) ≤ c := not_lt.mp h1
    calc (1 : ℚ) ≤ c := hc1
      _ = c * 1 := (mul_one c).symm
      _ ≤ c * 10 ^ 2 := by
          exact mul_le_mul_of_nonneg_left (by norm_num) (by linarith)
  · simpa using not_lt.mp h1

theorem jsRound_ge_one (y : ℚ) (h : 1/2 ≤ y) : 1 ≤ jsRound y := by
  unfold jsRound
  have h1 : (1 : ℚ) ≤ y + 1/2 := by linarith
  exact Int.le_floor.mpr (by exact_mod_cast h1)

theorem toFixedQ_pos (x : ℚ) (k : ℕ) (h : 1/2 ≤ x * 10 ^ k) : 0 < toFixedQ x k := by
  unfold toFixedQ
  apply div_pos
  · have h1 := jsRound_ge_one _ h
    have h2 : (1 : ℚ) ≤ (jsRound (x * 10 ^ k) : ℚ) := by exact_mod_cast h1
    linarith
  · positivity

/-- Every value produced by the generator is positive, provided the anchor
is at least `1/10000` (every entry of the mock table is far above this). -/
theorem generateRealisticHistoricalData_pos (symbol : String) (dates : List ℕ)
    (c : ℚ) (rand : ℕ → ℚ) (hc : 0 < c) (hcm : 1/10000 ≤ c) :
    ∀ p ∈ generateRealisticHistoricalData symbol dates c rand, 0 < p.2 := by
  intro p hp
  unfold generateRealisticHistoricalData at hp
  obtain ⟨q, hq, rfl⟩ := List.mem_map.mp hp
  have hq2 : q.2 ∈ (walk c (dailyVolatility symbol (rand 0))
      (if 1/2 < rand 1 then 1 else -1) (1/1000 + rand 2 * (2/1000)) rand
      dates.length 3 c).reverse := (List.of_mem_zip hq).2
  have hmem := List.mem_reverse.mp hq2
  have hge : c / 2 ≤ q.2 :=
    walk_ge c _ _ _ rand hc dates.length 3 c (by linarith) q.2 hmem
  apply toFixedQ_pos
  have hk := precOf_key c hcm
  have h10 : (0 : ℚ) < 10 ^ precOf c := by positivity
  have h3 : (c / 2) * 10 ^ precOf c ≤ q.2 * 10 ^ precOf c :=
    mul_le_mul_of_nonneg_right hge (le_of_lt h10)
  have h4 : (c / 2) * 10 ^ precOf c = (c * 10 ^ precOf c) / 2 := by ring
  linarith

/-- The keys of the generated series are exactly the input dates. -/
theorem generateRealisticHistoricalData_map_fst (symbol : String)
    (dates : List ℕ) (c : ℚ) (rand : ℕ → ℚ) :
    (generateRealisticHistoricalData symbol dates c rand).map Prod.fst = dates := by
  unfold generateRealisticHistoricalData
  have hlen : (walk c (dailyVolatility symbol (rand 0))
      (if 1/2 < rand 1 then 1 else -1) (1/1000 + rand 2 * (2/1000)) rand
      dates.length 3 c).reverse.length = dates.length := by
    rw [List.length_reverse, walk_length]
  rw [List.map_map]
  calc (dates.zip _).map (Prod.fst ∘ fun p => (p.1, toFixedQ p.2 (precOf c)))
      = (dates.zip _).map Prod.fst := rfl
    _ = dates := List.map_fst_zip _ _ (le_of_eq hlen.symm)

/-- C2 counterexample: for the single date `[0]` and anchor price `3521.8`
(the mock table's own ETH price), the generator returns `[3522]` — the
anchor rounded to the magnitude-scaled precision — not `[anchor]` as the
claim states. -/
theorem generate_claim_C2_counterexample :
    generateRealisticHistoricalData "ETH" [0] (17609/5) (fun _ => 0) =
        [(0, (3522 : ℚ))] ∧
      (3522 : ℚ) ≠ 17609/5 := by
  constructor
  · norm_num [generateRealisticHistoricalData, walk, toFixedQ, jsRound, precOf]
  · norm_num

/-- C2 amended: the generated series has one value per input date, and its
last value equals the anchor rounded by `toFixed` to the magnitude-scaled
precision (4 digits below 1, 2 below 100, 0 otherwise) — so it equals the
anchor exactly only when the anchor is already representable at that
precision. -/
theorem generate_claim_C2_amended (symbol : String) (dates : List ℕ) (c : ℚ)
    (rand : ℕ → ℚ) (hne : dates ≠ []) :
    (generateRealisticHistoricalData symbol dates c rand).map Prod.fst = dates ∧
      ((generateRealisticHistoricalData symbol dates c rand).map Prod.snd).getLast?
        = some (toFixedQ c (precOf c)) := by
  unfold generateRealisticHistoricalData
  have hlen : (walk c (dailyVolatility symbol (rand 0))
      (if 1/2 < rand 1 then 1 else -1) (1/1000 + rand 2 * (2/1000)) rand
      dates.length 3 c).reverse.length = dates.length := by
    rw [List.length_reverse, walk_length]
  constructor
  · rw [List.map_map]
    calc (dates.zip _).map
          (Prod.fst ∘ fun p => (p.1, toFixedQ p.2 (precOf c)))
        = (dates.zip _).map Prod.fst := rfl
      _ = dates := List.map_fst_zip _ _ (le_of_eq hlen.symm)
  · rw [List.map_map]
    have hcomp : (Prod.snd ∘ fun p : ℕ × ℚ => (p.1, toFixedQ p.2 (precOf c)))
        = (fun x => toFixedQ x (precOf c)) ∘ Prod.snd := rfl
    rw [hcomp, ← List.map_map, List.map_snd_zip _ _ (le_of_eq hlen),
      List.getLast?_map, List.getLast?_reverse,
      walk_head _ _ _ _ _ _ _ _ (fun h0 => hne (List.length_eq_zero.mp h0))]
    rfl

theorem generate_claim_C2_amended_witness :
    ((generateRealisticHistoricalData "BTC" [5] 97240 (fun _ => 0)).map Prod.fst
        = [5] ∧
      ((generateRealisticHistoricalData "BTC" [5] 97240 (fun _ => 0)).map
          Prod.snd).getLast? = some (toFixedQ 97240 (precOf 97240))) ∧
      toFixedQ 97240 (precOf 97240) = 97240 :=
  ⟨generate_claim_C2_amended "BTC" [5] 97240 (fun _ => 0) (by decide),
    by norm_num [toFixedQ, jsRound, precOf]⟩

theorem gapFill_claim_C9_witness :
    forwardFillDates (fun _ => some (5 : ℚ)) (some 3) [0, 1] =
        ([0, 1] : List ℕ).map (fun d => (d, some (5 : ℚ))) ∧
      (backwardFillDates (fun _ => some (5 : ℚ)) (some 3)
          (forwardFillDates (fun _ => some (5 : ℚ)) (some 3) [0, 1])).2 =
        ([0, 1] : List ℕ).map (fun d => (d, some (5 : ℚ))) ∧
      fillPoints [⟨0, 5⟩] = [⟨0, 5⟩] :=
  gapFill_claim_C9 [0, 1] (fun _ => some 5) (some 3) [⟨0, 5⟩]
    (fun _ _ => ⟨5, rfl, by norm_num⟩)
    (by intro p hp; simp at hp; rw [hp]; norm_num)

/-! ## getTimeSeries (CoinLayerService.js)

Upstream interactions are parameters: `tfResp` is the parsed per-date rate
map of the `/timeframe` call (`none` = thrown fetch or non-success payload),
`live` the candidate live rate for the symbol (from `opts.preFetchedLiveRate`
or the `getLiveRates` fallback), `hist d` the raw per-day `/YYYY-MM-DD` rate
for day `d`, and `rand` the random stream for the synthetic generator. -/

/-- `getDateRange(startDate, endDate)`: the calendar days from start to end
inclusive, as consecutive day indices, in ascending order. -/
def getDateRange (s e : ℕ) : List ℕ := (List.range (e + 1 - s)).map (· + s)

/-- `getTimeFrameRates`: a failed or non-success call yields `{}`; otherwise
only positive numeric per-day rates are kept. -/
def getTimeFrameRates (resp : Option (List (ℕ × ℚ))) : List (ℕ × ℚ) :=
  match resp with
  | none => []
  | some entries => entries.filter (fun p => 0 < p.2)

/-- `rates[date]` on the JS rates object: `none` = key absent. -/
def lookupDate (d : ℕ) : List (ℕ × Option ℚ) → Option (Option ℚ)
  | [] => none
  | p :: rest => if p.1 = d then some p.2 else lookupDate d rest

/-- `rates[date] == null || rates[date] <= 0`. -/
def entryMissing (v : Option (Option ℚ)) : Bool :=
  match v with
  | none => true
  | some none => true
  | some (some x) => decide (x ≤ 0)

/-- `Object.values(rates).filter(v => v != null && v > 0)`. -/
def rateValuesOf (l : List (ℕ × Option ℚ)) : List ℚ :=
  l.filterMap (fun p =>
    match p.2 with
    | some v => if 0 < v then some v else none
    | none => none)

/-- The flat-line check: more than two values, all within 0.01 of the
first. -/
def isFlatVals : List ℚ → Bool
  | [] => false
  | v0 :: rest =>
    decide (2 < (v0 :: rest).length) &&
      (v0 :: rest).all (fun v => decide (|v - v0| < 1/100))

structure TSResult where
  success : Bool
  rates : List (ℕ × Option ℚ)
  mock : Bool
deriving DecidableEq

/-- The gap-filled per-day rates of the fallback tier: the live rate is kept
only if positive, raw per-day rates only if positive, then the forward and
backward passes run over the date range. -/
def tsFilled (live0 : Option ℚ) (hist : ℕ → Option ℚ) (dates : List ℕ) :
    List (ℕ × Option ℚ) :=
  let live : Option ℚ :=
    match live0 with
    | some v => if 0 < v then some v else none
    | none => none
  (backwardFillDates (fun d => sanitizeRate (hist d)) live
    (forwardFillDates (fun d => sanitizeRate (hist d)) live dates)).2

/-- Tiers 2–4 of `getTimeSeries` (per-day fetch + gap-fill + degradation
check + synthetic regeneration).  `getMockRates([symbol])[symbol]` is
exactly the table lookup of the symbol. -/
def tsFallback (symbol : String) (dates : List ℕ) (live : Option ℚ)
    (hist : ℕ → Option ℚ) (rand : ℕ → ℚ) : TSResult :=
  let filled := tsFilled live hist dates
  let isFlat := isFlatVals (rateValuesOf filled)
  let hasMissing := dates.any (fun d => entryMissing (lookupDate d filled))
  match lookupRate symbol mockRatesTable, hasMissing || isFlat with
  | some m, true =>
    { success := true,
      rates := (generateRealisticHistoricalData symbol dates m rand).map
        (fun p => (p.1, some p.2)),
      mock := true }
  | _, _ => { success := true, rates := filled, mock := hasMissing || isFlat }

/-- `getTimeSeries(symbol, startDate, endDate)`: tier 1 (timeframe) wins as
soon as it is non-empty; otherwise the per-day fallback runs. -/
def getTimeSeries (symbol : String) (s e : ℕ) (tfResp : Option (List (ℕ × ℚ)))
    (live : Option ℚ) (hist : ℕ → Option ℚ) (rand : ℕ → ℚ) : TSResult :=
  if getTimeFrameRates tfResp ≠ [] then
    { success := true,
      rates := (getTimeFrameRates tfResp).map (fun p => (p.1, some p.2)),
      mock := false }
  else tsFallback symbol (getDateRange s e) live hist rand

/-- C1 counterexample: for the valid range `0..2` (three days), an upstream
timeframe response covering only day 1 wins tier 1 unchanged, so the result
has one point instead of one per calendar day. -/
theorem getTimeSeries_claim_C1_counterexample :
    (getTimeSeries "BTC" 0 2 (some [(1, 50)]) none (fun _ => none)
        (fun _ => 0)).rates.map Prod.fst = [1] ∧
      getDateRange 0 2 = [0, 1, 2] ∧ ([1] : List ℕ) ≠ [0, 1, 2] := by
  refine ⟨by decide, by decide, by decide⟩

theorem getDateRange_pairwise (s e : ℕ) :
    List.Pairwise (· < ·) (getDateRange s e) := by
  unfold getDateRange
  refine List.Pairwise.map _ ?_ (List.pairwise_lt_range _)
  intro a b hab
  omega

theorem getDateRange_length (s e : ℕ) (h : s ≤ e) :
    (getDateRange s e).length = e - s + 1 := by
  unfold getDateRange
  rw [List.length_map, List.length_range]
  omega

theorem forwardFillDates_map_fst (raw : ℕ → Option ℚ) :
    ∀ (dates : List ℕ) (last : Option ℚ),
      (forwardFillDates raw last dates).map Prod.fst = dates := by
  intro dates
  induction dates with
  | nil => intro last; rfl
  | cons d rest ih =>
    intro last
    cases hr : raw d with
    | none => simp only [forwardFillDates, hr, List.map_cons, ih]
    | some v => simp only [forwardFillDates, hr, List.map_cons, ih]

theorem backwardFillDates_map_fst (raw : ℕ → Option ℚ) :
    ∀ (l : List (ℕ × Option ℚ)) (first : Option ℚ),
      ((backwardFillDates raw first l).2).map Prod.fst = l.map Prod.fst := by
  intro l
  induction l with
  | nil => intro first; rfl
  | cons p rest ih =>
    intro first
    obtain ⟨d, v⟩ := p
    simp only [backwardFillDates, List.map_cons]
    rw [ih first]

theorem tsFilled_map_fst (live : Option ℚ) (hist : ℕ → Option ℚ)
    (dates : List ℕ) : (tsFilled live hist dates).map Prod.fst = dates := by
  unfold tsFilled
  rw [backwardFillDates_map_fst, forwardFillDates_map_fst]

theorem lookupDate_of_nodup (p : ℕ × Option ℚ) :
    ∀ l : List (ℕ × Option ℚ), (l.map Prod.fst).Nodup → p ∈ l →
      lookupDate p.1 l = some p.2 := by
  intro l
  induction l with
  | nil => intro _ hp; simp at hp
  | cons q rest ih =>
    intro hnd hp
    rcases List.mem_cons.mp hp with h1 | h1
    · subst h1
      simp [lookupDate]
    · have hq : q.1 ∉ rest.map Prod.fst :=
        (List.nodup_cons.mp (by simpa using hnd)).1
      have hne : q.1 ≠ p.1 := by
        intro he
        exact hq (he ▸ List.mem_map.mpr ⟨p, h1, rfl⟩)
      simp only [lookupDate, if_neg hne]
      exact ih (List.nodup_cons.mp (by simpa using hnd)).2 h1

theorem lookupRate_mem_snd (k : String) (v : ℚ) :
    ∀ l : List (String × ℚ), lookupRate k l = some v → v ∈ l.map Prod.snd := by
  intro l
  induction l with
  | nil => intro h; simp [lookupRate] at h
  | cons p rest ih =>
    intro h
    simp only [lookupRate] at h
    by_cases hp : p.1 = k
    · rw [if_pos hp] at h
      injection h with hv
      subst hv
      exact List.mem_cons_self _ _
    · rw [if_neg hp] at h
      exact List.mem_cons_of_mem _ (ih h)

theorem mockRatesTable_bound (v : ℚ) (hv : v ∈ mockRatesTable.map Prod.snd) :
    0 < v ∧ 1/10000 ≤ v := by
  fin_cases hv <;> constructor <;> norm_num

/-- Core property of the fallback tiers: whatever the per-day and live data
look like, when the symbol has a mock price the output is keyed by exactly
the requested dates and every value is a positive price. -/
theorem tsFallback_spec (symbol : String) (dates : List ℕ) (live : Option ℚ)
    (hist : ℕ → Option ℚ) (rand : ℕ → ℚ) (m : ℚ)
    (hm : lookupRate symbol mockRatesTable = some m)
    (hnd : dates.Nodup) :
    (tsFallback symbol dates live hist rand).success = true ∧
      (tsFallback symbol dates live hist rand).rates.map Prod.fst = dates ∧
      ∀ p ∈ (tsFallback symbol dates live hist rand).rates,
        ∃ v, p.2 = some v ∧ 0 < v := by
  have hmb := mockRatesTable_bound m (lookupRate_mem_snd symbol m _ hm)
  simp only [tsFallback]
  rw [hm]
  by_cases hc : (dates.any (fun d =>
      entryMissing (lookupDate d (tsFilled live hist dates))) ||
        isFlatVals (rateValuesOf (tsFilled live hist dates))) = true
  · rw [hc]
    refine ⟨rfl, ?_, ?_⟩
    · rw [List.map_map]
      calc (generateRealisticHistoricalData symbol dates m rand).map
            (Prod.fst ∘ fun p => (p.1, some p.2))
          = (generateRealisticHistoricalData symbol dates m rand).map Prod.fst :=
            rfl
        _ = dates := generateRealisticHistoricalData_map_fst symbol dates m rand
    · intro p hp
      obtain ⟨q, hq, rfl⟩ := List.mem_map.mp hp
      exact ⟨q.2, rfl,
        generateRealisticHistoricalData_pos symbol dates m rand hmb.1 hmb.2 q hq⟩
  · rw [Bool.not_eq_true] at hc
    rw [hc]
    refine ⟨rfl, tsFilled_map_fst live hist dates, ?_⟩
    intro p hp
    have hany := hc
    rw [Bool.or_eq_false_iff] at hany
    have hmiss := hany.1
    rw [List.any_eq_false] at hmiss
    have hp1 : p.1 ∈ dates := by
      rw [← tsFilled_map_fst live hist dates]
      exact List.mem_map.mpr ⟨p, hp, rfl⟩
    have hlook : lookupDate p.1 (tsFilled live hist dates) = some p.2 :=
      lookupDate_of_nodup p _ (by rwa [tsFilled_map_fst]) hp
    have hem := hmiss p.1 hp1
    rw [hlook] at hem
    cases hv : p.2 with
    | none => rw [hv] at hem; simp [entryMissing] at hem
    | some x =>
      rw [hv] at hem
      have hxpos : ¬ x ≤ 0 := by
        intro hle
        simp [entryMissing, hle] at hem
      exact ⟨x, rfl, not_le.mp hxpos⟩

/-- C1 amended: `getTimeSeries` never raises (the embedding is a total
function and each upstream interaction is already `Option`-guarded, matching
the source's catch-all); and PROVIDED the timeframe tier yields no usable
rate and the symbol has a mock reference price, the result is a success
carrying exactly one point per calendar day of the valid range, with
strictly ascending dates and every price positive.  As the counterexample
shows, the one-point-per-day guarantee does not survive a timeframe
response that covers only part of the range. -/
theorem getTimeSeries_claim_C1_amended (symbol : String) (s e : ℕ)
    (tfResp : Option (List (ℕ × ℚ))) (live : Option ℚ) (hist : ℕ → Option ℚ)
    (rand : ℕ → ℚ) (m : ℚ) (hse : s ≤ e)
    (htf : getTimeFrameRates tfResp = [])
    (hm : lookupRate symbol mockRatesTable = some m) :
    (getTimeSeries symbol s e tfResp live hist rand).success = true ∧
      (getTimeSeries symbol s e tfResp live hist rand).rates.map Prod.fst =
        getDateRange s e ∧
      List.Pairwise (· < ·)
        ((getTimeSeries symbol s e tfResp live hist rand).rates.map Prod.fst) ∧
      (getDateRange s e).length = e - s + 1 ∧
      ∀ p ∈ (getTimeSeries symbol s e tfResp live hist rand).rates,
        ∃ v, p.2 = some v ∧ 0 < v := by
  have hnd : (getDateRange s e).Nodup :=
    (getDateRange_pairwise s e).imp (fun h => ne_of_lt h)
  have hres : getTimeSeries symbol s e tfResp live hist rand =
      tsFallback symbol (getDateRange s e) live hist rand := by
    simp [getTimeSeries, htf]
  rw [hres]
  obtain ⟨h1, h2, h3⟩ :=
    tsFallback_spec symbol (getDateRange s e) live hist rand m hm hnd
  refine ⟨h1, h2, ?_, getDateRange_length s e hse, h3⟩
  rw [h2]
  exact getDateRange_pairwise s e

theorem getTimeSeries_claim_C1_amended_witness :
    (getTimeSeries "BTC" 0 1 none none (fun _ => none) (fun _ => 0)).success
        = true ∧
      (getTimeSeries "BTC" 0 1 none none (fun _ => none)
          (fun _ => 0)).rates.map Prod.fst = getDateRange 0 1 ∧
      List.Pairwise (· < ·)
        ((getTimeSeries "BTC" 0 1 none none (fun _ => none)
          (fun _ => 0)).rates.map Prod.fst) ∧
      (getDateRange 0 1).length = 1 - 0 + 1 ∧
      ∀ p ∈ (getTimeSeries "BTC" 0 1 none none (fun _ => none)
          (fun _ => 0)).rates, ∃ v, p.2 = some v ∧ 0 < v :=
  getTimeSeries_claim_C1_amended "BTC" 0 1 none none (fun _ => none)
    (fun _ => 0) 97240 (by decide) rfl (by decide)

end FinDash
